import Mathlib

/-!
# Nervous-Sensors: verification of the core pipeline

Shallow embedding of the core components of the `nervous_sensors` package:

* `DataManager` (src/nervous_sensors/data_manager.py): the bounded,
  queryable time-series buffer (`_add_data`, `get_latest_data`).
* `Codec` (src/nervous_sensors/codec.py): the COBS-framed wire codec
  (`cobs_decode`, and the stuff-and-terminate framing used by `time_encode`).
* `ECGAnalyzer` (src/nervous_sensors/ecg_analyzer.py): the sliding-window
  heart-rate extraction pipeline (`update_hr`, `_calculate_heart_rate`,
  `_update_peak_history`, `_reinit_history`).
* `ConnectionManager` (src/nervous_sensors/connection_manager.py): the
  semaphore-gated connection orchestration, as a transition system.
* `NervousVirtual` (src/nervous_sensors/nervous_virtual.py): the periodic
  notification loop of virtual sensors, as a trace semantics.
* `NervousHR` (src/nervous_sensors/nervous_hr.py): the heart-rate virtual
  sensor's `_process_data` watermark logic.

Python floats are modelled as exact rationals (`ℚ`); machine byte values as
`ℕ` (only values `0..255` arise).  The numeric peak-detection internals
(scipy / sleepecg / neurokit2) are free parameters of the model: every
theorem about `update_hr` is quantified over the detector.
-/

namespace NervousSensors

/-! ## DataManager (src/nervous_sensors/data_manager.py) -/

namespace DataManager

/-- A row of the buffer: one sample record (list of channel values). -/
abbrev Row := List ℚ

/-- Lower truncation threshold (`THRESH1 = 12000` in data_manager.py). -/
def THRESH1 : ℕ := 12000

/-- Upper threshold triggering truncation (`THRESH2 = 20000`). -/
def THRESH2 : ℕ := 20000

/-- `DataManager._add_data`: extend the store with the new rows; if the
length reaches `THRESH2`, keep only the last `THRESH1` rows
(`self.__data = self.__data[-THRESH1:]`). -/
def addData (store data : List Row) : List Row :=
  if THRESH2 ≤ (store ++ data).length then
    (store ++ data).drop ((store ++ data).length - THRESH1)
  else store ++ data

/-- A column reference: a positional index or a column name, as accepted by
`get_latest_data`'s `latest_data_column` / `concerned_columns` arguments. -/
abbrev ColRef := ℕ ⊕ String

/-- A pandas DataFrame, reduced to what the buffer code uses: an ordered
list of column identifiers and the rows. -/
structure DF where
  cols : List ColRef
  rows : List (List ℚ)
deriving DecidableEq, Repr

/-- `pd.DataFrame(self.__data, columns=self.__header)`: builds the frame,
failing when the rows do not fit the header shape. -/
def mkDF (header : List String) (data : List (List ℚ)) : Except String DF :=
  if data.all (fun r => r.length = header.length) then
    .ok ⟨header.map .inr, data⟩
  else .error "PandasError"

/-- `data[concerned_columns]`: column subset selection.  Any reference that
is not a known column name raises a `KeyError` (in particular any integer
left untranslated by the all-int check). -/
def selectCols (df : DF) (cc : List ColRef) : Except String DF :=
  if cc.all (fun c => df.cols.any (fun c2 => decide (c2 = c))) then
    .ok ⟨cc, df.rows.map (fun r =>
      cc.map (fun c => r.getD (df.cols.findIdx (fun c2 => decide (c2 = c))) 0))⟩
  else .error "KeyError"

/-- Python's `l[k:]` slice (drop with clamping, negative `k` counts from the
end), used for `data[-last_n:]`. -/
def pySliceFrom (l : List (List ℚ)) (k : ℤ) : List (List ℚ) :=
  if k < 0 then l.drop (l.length - min (-k).toNat l.length)
  else l.drop (min k.toNat l.length)

/-- Resolution of `concerned_columns` (data_manager.py lines 118-122).  This
happens BEFORE the `try` block: a `None` argument becomes the full header,
and an all-integer list is translated through `self.__header[c]`, where an
out-of-range index raises an `IndexError` that propagates to the caller. -/
def resolveCols (header : List String) : Option (List ColRef) → Except String (List ColRef)
  | none => .ok (header.map .inr)
  | some cs =>
    if cs.all (fun c => c.isLeft) then
      cs.mapM (fun c => match c with
        | .inl i => match header.get? i with
          | some nm => pure (Sum.inr nm)
          | none => Except.error "IndexError"
        | .inr nm => pure (Sum.inr nm))
    else .ok cs

/-- The body of the `try` block of `get_latest_data` (lines 125-144).
Returns `some df` for a `return data` statement, `none` for the implicit
`return None` fall-through (timestamp column absent from the selection),
and an error for any exception raised inside the block — including the
`ValueError` of the both-or-neither mode violation (line 144). -/
def innerQuery (header : List String) (data : List (List ℚ)) (cc : List ColRef)
    (last_n : Option ℤ) (latest_data : Option ℚ) (ldc : ColRef) :
    Except String (Option DF) := do
  let df0 ← mkDF header data
  let df ← selectCols df0 cc
  match last_n, latest_data with
  | some n, none =>
    if n = -1 ∨ (df.rows.length : ℤ) ≤ n then pure (some df)
    else pure (some ⟨df.cols, pySliceFrom df.rows (-n)⟩)
  | none, some ld =>
    let ldcName ← (match ldc with
      | .inl i => match header.get? i with
        | some nm => pure (Sum.inr nm : ColRef)
        | none => Except.error "IndexError"
      | .inr nm => pure (Sum.inr nm : ColRef))
    if df.cols.any (fun c2 => decide (c2 = ldcName)) then
      let j := df.cols.findIdx (fun c2 => decide (c2 = ldcName))
      pure (some ⟨df.cols, df.rows.filter (fun r => decide (ld < r.getD j 0))⟩)
    else pure none
  | _, _ => Except.error "ValueError"

/-- `DataManager.get_latest_data`: resolve the requested columns (outside
the `try`: failures propagate), then run the guarded query body; any
exception inside the guarded body degrades to an empty DataFrame shaped by
the requested columns (`except` clause, lines 145-148). -/
def get_latest_data (header : List String) (data : List (List ℚ))
    (last_n : Option ℤ) (latest_data : Option ℚ) (ldc : ColRef)
    (ccOpt : Option (List ColRef)) : Except String (Option DF) :=
  match resolveCols header ccOpt with
  | .error e => .error e
  | .ok cc =>
    match innerQuery header data cc last_n latest_data ldc with
    | .error _ => .ok (some ⟨cc, []⟩)
    | .ok r => .ok r

end DataManager

/-! ## Codec (src/nervous_sensors/codec.py) -/

namespace Codec

/-- Modelled from the spec: the byte-stuffing of the third-party `cobs`
package (consistent-overhead byte stuffing), which codec.py calls in
`time_encode` / `cobs_decode` but whose body is not part of this
repository.  "COBS-style framing: byte-stuffing scheme guaranteeing no
zero byte appears except as an explicit frame terminator."  Blocks of up to
254 non-zero bytes are emitted behind a one-byte length code; a code of
`0xFF` marks a full 254-byte block with no implied zero.  Structural
recursion on explicit fuel so that the function evaluates; `cobsEncode`
supplies sufficient fuel.  `nzBlock xs` is the leading block: the longest
run of non-zero bytes, capped at 254. -/
def nzBlock (xs : List ℕ) : List ℕ := (xs.takeWhile (fun b => decide (b ≠ 0))).take 254

/-- One step of the COBS encoder, see `nzBlock`'s doc comment. -/
def cobsEncodeGo : ℕ → List ℕ → List ℕ
  | 0, _ => []
  | fuel + 1, xs =>
    if (nzBlock xs).length = 254 then
      (255 :: nzBlock xs) ++ cobsEncodeGo fuel (xs.drop 254)
    else if xs.length ≤ (nzBlock xs).length then
      ((nzBlock xs).length + 1) :: nzBlock xs
    else
      (((nzBlock xs).length + 1) :: nzBlock xs) ++ cobsEncodeGo fuel (xs.drop ((nzBlock xs).length + 1))

/-- `cobs.encode`: stuff a payload so that it contains no zero byte. -/
def cobsEncode (xs : List ℕ) : List ℕ := cobsEncodeGo (xs.length + 1) xs

/-- Modelled from the spec: `cobs.decode` of the third-party `cobs`
package.  Reads a length code, copies `code - 1` bytes (failing on a zero
byte, a zero code, or truncated input), and re-inserts the implied zero
after every non-final block whose code is below `0xFF`. -/
def cobsDecodeGo : ℕ → List ℕ → Option (List ℕ)
  | 0, _ => none
  | _ + 1, [] => some []
  | fuel + 1, code :: rest =>
    if code = 0 then none
    else
      let chunk := rest.take (code - 1)
      if chunk.length < code - 1 then none
      else if chunk.any (fun b => decide (b = 0)) then none
      else
        match rest.drop (code - 1) with
        | [] => some chunk
        | r2 =>
          (cobsDecodeGo fuel r2).map
            (fun t => chunk ++ (if code < 255 then [0] else []) ++ t)

/-- `cobs.decode` with sufficient fuel. -/
def cobsDecode (xs : List ℕ) : Option (List ℕ) := cobsDecodeGo (xs.length + 1) xs

/-- The framing applied by `Codec.time_encode` (codec.py lines 33-35):
byte-stuff the serialized payload and append the `0x00` terminator
(`encoded_data = cobs.encode(serialized_data); encoded_data + b"\x00"`). -/
def stuffAndTerminate (payload : List ℕ) : List ℕ := cobsEncode payload ++ [0]

/-- `Codec.cobs_decode` (codec.py lines 53-58): strip the trailing frame
delimiter (`data_buffer = data[:-1]`) and reverse the byte-stuffing. -/
def cobs_decode (data : List ℕ) : Option (List ℕ) := cobsDecode data.dropLast

/-! ### Round-trip lemmas for the COBS framing -/

lemma mem_nzBlock_ne_zero {xs : List ℕ} {b : ℕ} (hb : b ∈ nzBlock xs) : b ≠ 0 := by
  have h := List.mem_takeWhile_imp (List.mem_of_mem_take hb)
  simpa using h

lemma nzBlock_length_le (xs : List ℕ) : (nzBlock xs).length ≤ xs.length := by
  have h1 : (xs.takeWhile (fun b => decide (b ≠ 0))).length ≤ xs.length :=
    List.Sublist.length_le (List.takeWhile_sublist _)
  simp only [nzBlock, List.length_take]
  exact le_trans (min_le_right _ _) h1

lemma nzBlock_length_le_254 (xs : List ℕ) : (nzBlock xs).length ≤ 254 := by
  simpa [nzBlock] using List.length_take_le 254 (xs.takeWhile (fun b => decide (b ≠ 0)))

/-- When the leading block is capped neither by a zero nor by the end of the
input, the block is the literal 254-byte head of the input. -/
lemma nzBlock_eq_take (xs : List ℕ) (h : (nzBlock xs).length = 254) :
    nzBlock xs = xs.take 254 := by
  have htw : 254 ≤ (xs.takeWhile (fun b => decide (b ≠ 0))).length := by
    by_contra hlt
    push_neg at hlt
    have heq : (xs.takeWhile (fun b => decide (b ≠ 0))).take 254 =
        xs.takeWhile (fun b => decide (b ≠ 0)) :=
      List.take_of_length_le (le_of_lt hlt)
    rw [nzBlock, heq] at h
    omega
  have hsplit := List.takeWhile_append_dropWhile (p := fun b => decide (b ≠ 0)) (l := xs)
  calc nzBlock xs
      = ((xs.takeWhile (fun b => decide (b ≠ 0)) ++
          xs.dropWhile (fun b => decide (b ≠ 0))).take 254) := by
        rw [List.take_append_of_le_length htw]; rfl
    _ = xs.take 254 := by rw [hsplit]

/-- When the block is shorter than 254 bytes, it is the whole maximal
non-zero run. -/
lemma nzBlock_eq_takeWhile (xs : List ℕ) (h : (nzBlock xs).length ≠ 254) :
    nzBlock xs = xs.takeWhile (fun b => decide (b ≠ 0)) := by
  rcases le_or_lt (xs.takeWhile (fun b => decide (b ≠ 0))).length 254 with hle | hlt
  · exact List.take_of_length_le hle
  · exfalso
    apply h
    rw [nzBlock, List.length_take]
    omega

/-- If the maximal non-zero run stops inside the list, the stopping byte is
a zero and the list decomposes around it. -/
lemma takeWhile_stop_zero :
    ∀ xs : List ℕ, (xs.takeWhile (fun b => decide (b ≠ 0))).length < xs.length →
      xs = xs.takeWhile (fun b => decide (b ≠ 0)) ++
        0 :: xs.drop ((xs.takeWhile (fun b => decide (b ≠ 0))).length + 1) := by
  intro xs
  induction xs with
  | nil => simp
  | cons a t ih =>
    intro h
    by_cases ha : a = 0
    · subst ha
      simp [List.takeWhile_cons]
    · have ha' : decide (a ≠ 0) = true := by simpa using ha
      simp only [List.takeWhile_cons, ha', if_true, List.length_cons,
        List.drop_succ_cons, List.cons_append] at h ⊢
      exact congrArg (List.cons a) (ih (by omega))

/-- A final (terminal) COBS block decodes to its chunk. -/
lemma cobsDecodeGo_final (f : ℕ) (chunk : List ℕ)
    (hz : ∀ b ∈ chunk, b ≠ 0) :
    cobsDecodeGo (f + 1) ((chunk.length + 1) :: chunk) = some chunk := by
  have hany : chunk.any (fun b => decide (b = 0)) = false := by
    rw [List.any_eq_false]
    intro b hb
    simpa using hz b hb
  simp [cobsDecodeGo, hany]

/-- A non-final COBS block decodes to its chunk, the implied zero when the
code is below 255, and the decode of the remainder. -/
lemma cobsDecodeGo_cons (f : ℕ) (code : ℕ) (chunk r2 : List ℕ)
    (hc : code - 1 = chunk.length) (hc0 : code ≠ 0)
    (hz : ∀ b ∈ chunk, b ≠ 0) (hr : r2 ≠ []) :
    cobsDecodeGo (f + 1) (code :: (chunk ++ r2)) =
      (cobsDecodeGo f r2).map
        (fun t => chunk ++ (if code < 255 then [0] else []) ++ t) := by
  have hany : chunk.any (fun b => decide (b = 0)) = false := by
    rw [List.any_eq_false]
    intro b hb
    simpa using hz b hb
  simp only [cobsDecodeGo, if_neg hc0, hc, List.take_left, List.drop_left, hany,
    Bool.false_eq_true, if_false, if_neg (lt_irrefl chunk.length)]

/-- Fuel irrelevance for the encoder: any sufficient fuel computes
`cobsEncode`. -/
lemma cobsEncodeGo_eq :
    ∀ n : ℕ, ∀ xs : List ℕ, xs.length ≤ n → ∀ fuel, xs.length < fuel →
      cobsEncodeGo fuel xs = cobsEncode xs := by
  intro n
  induction n with
  | zero =>
    intro xs hx fuel hf
    have hnil : xs = [] := List.length_eq_zero.mp (Nat.le_zero.mp hx)
    subst hnil
    match fuel, hf with
    | f + 1, _ => simp [cobsEncode, cobsEncodeGo, nzBlock]
  | succ n ih =>
    intro xs hx fuel hf
    match fuel, hf with
    | f + 1, hf =>
      show cobsEncodeGo (f + 1) xs = cobsEncodeGo (xs.length + 1) xs
      simp only [cobsEncodeGo]
      by_cases h254 : (nzBlock xs).length = 254
      · have hlen : 254 ≤ xs.length := h254 ▸ nzBlock_length_le xs
        rw [if_pos h254, if_pos h254,
          ih (xs.drop 254) (by simp; omega) f (by simp; omega),
          ih (xs.drop 254) (by simp; omega) xs.length (by simp; omega)]
      · rw [if_neg h254, if_neg h254]
        by_cases hfin : xs.length ≤ (nzBlock xs).length
        · rw [if_pos hfin, if_pos hfin]
        · push_neg at hfin
          have hd : (nzBlock xs).length + 1 ≤ xs.length := hfin
          rw [if_neg (by omega), if_neg (by omega),
            ih (xs.drop ((nzBlock xs).length + 1)) (by simp; omega) f (by simp; omega),
            ih (xs.drop ((nzBlock xs).length + 1)) (by simp; omega) xs.length (by simp; omega)]

/-- The encoder never produces the empty list. -/
lemma cobsEncode_ne_nil (xs : List ℕ) : cobsEncode xs ≠ [] := by
  rw [cobsEncode]
  simp only [cobsEncodeGo]
  by_cases h254 : (nzBlock xs).length = 254
  · simp [h254]
  · rw [if_neg h254]
    by_cases hfin : xs.length ≤ (nzBlock xs).length
    · simp [hfin]
    · rw [if_neg hfin]
      simp

/-- One-step unfolding of `cobsEncode` in the full-block case. -/
lemma cobsEncode_eq_full (xs : List ℕ) (h254 : (nzBlock xs).length = 254) :
    cobsEncode xs = 255 :: (nzBlock xs ++ cobsEncode (xs.drop 254)) := by
  have hlen : 254 ≤ xs.length := h254 ▸ nzBlock_length_le xs
  rw [cobsEncode]
  simp only [cobsEncodeGo]
  rw [if_pos h254,
    cobsEncodeGo_eq xs.length (xs.drop 254) (by simp <;> omega) xs.length (by simp <;> omega)]
  simp only [List.cons_append]

/-- One-step unfolding of `cobsEncode` in the final-block case. -/
lemma cobsEncode_eq_final (xs : List ℕ) (h254 : (nzBlock xs).length ≠ 254)
    (hfin : xs.length ≤ (nzBlock xs).length) :
    cobsEncode xs = (xs.length + 1) :: xs ∧ nzBlock xs = xs := by
  have hble : (nzBlock xs).length ≤ xs.length := nzBlock_length_le xs
  have hlen : (nzBlock xs).length = xs.length := le_antisymm hble hfin
  have htw : nzBlock xs = xs.takeWhile (fun b => decide (b ≠ 0)) := nzBlock_eq_takeWhile xs h254
  have hxs : nzBlock xs = xs := by
    rw [htw]
    apply List.Sublist.eq_of_length (List.takeWhile_sublist _)
    rw [← htw, hlen]
  constructor
  · rw [cobsEncode]
    simp only [cobsEncodeGo]
    rw [if_neg h254, if_pos hfin, hxs]
  · exact hxs

/-- One-step unfolding of `cobsEncode` in the middle-block case: a zero byte
stops the block strictly inside the input. -/
lemma cobsEncode_eq_mid (xs : List ℕ) (h254 : (nzBlock xs).length ≠ 254)
    (hfin : (nzBlock xs).length < xs.length) :
    cobsEncode xs = ((nzBlock xs).length + 1) ::
        (nzBlock xs ++ cobsEncode (xs.drop ((nzBlock xs).length + 1))) ∧
      xs = nzBlock xs ++ 0 :: xs.drop ((nzBlock xs).length + 1) := by
  have htw : nzBlock xs = xs.takeWhile (fun b => decide (b ≠ 0)) := nzBlock_eq_takeWhile xs h254
  constructor
  · rw [cobsEncode]
    simp only [cobsEncodeGo]
    rw [if_neg h254, if_neg (by omega),
      cobsEncodeGo_eq xs.length (xs.drop ((nzBlock xs).length + 1)) (by simp <;> omega)
        xs.length (by simp <;> omega)]
    simp only [List.cons_append]
  · have := takeWhile_stop_zero xs (by rw [← htw]; exact hfin)
    rw [htw]
    rw [← htw] at this ⊢
    exact this

/-- Decoding inverts encoding (generic fuel form). -/
lemma cobsDecodeGo_cobsEncode :
    ∀ n : ℕ, ∀ xs : List ℕ, xs.length ≤ n → ∀ f, (cobsEncode xs).length ≤ f →
      cobsDecodeGo (f + 1) (cobsEncode xs) = some xs := by
  intro n
  induction n with
  | zero =>
    intro xs hx f hf
    have hnil : xs = [] := List.length_eq_zero.mp (Nat.le_zero.mp hx)
    subst hnil
    have henc : cobsEncode ([] : List ℕ) = [1] := rfl
    rw [henc]
    have := cobsDecodeGo_final f ([] : List ℕ) (by simp)
    simpa using this
  | succ n ih =>
    intro xs hx f hf
    by_cases h254 : (nzBlock xs).length = 254
    · -- full 254-byte block, no implied zero
      have henc := cobsEncode_eq_full xs h254
      have hxs : xs = nzBlock xs ++ xs.drop 254 := by
        rw [nzBlock_eq_take xs h254]
        exact (List.take_append_drop 254 xs).symm
      have hlen : 254 ≤ xs.length := h254 ▸ nzBlock_length_le xs
      have hflen : (cobsEncode (xs.drop 254)).length + 255 ≤ f := by
        have hlc := congrArg List.length henc
        simp [h254] at hlc
        omega
      rw [henc]
      rw [cobsDecodeGo_cons f 255 (nzBlock xs) (cobsEncode (xs.drop 254))
        (by omega) (by omega) (fun b hb => mem_nzBlock_ne_zero hb)
        (cobsEncode_ne_nil _)]
      obtain ⟨f', rfl⟩ : ∃ f', f = f' + 1 := ⟨f - 1, by omega⟩
      rw [ih (xs.drop 254) (by simp; omega) f' (by omega)]
      rw [if_neg (by omega : ¬ (255 : ℕ) < 255)]
      simpa using hxs.symm
    · by_cases hfin : xs.length ≤ (nzBlock xs).length
      · -- final block
        obtain ⟨henc, hxs⟩ := cobsEncode_eq_final xs h254 hfin
        rw [henc]
        exact cobsDecodeGo_final f xs
          (fun b hb => mem_nzBlock_ne_zero (hxs ▸ hb))
      · -- middle block: stopped by a zero byte
        push_neg at hfin
        obtain ⟨henc, hxs⟩ := cobsEncode_eq_mid xs h254 hfin
        have hflen : (cobsEncode (xs.drop ((nzBlock xs).length + 1))).length +
            (nzBlock xs).length + 1 ≤ f := by
          have hlc := congrArg List.length henc
          simp at hlc
          omega
        rw [henc]
        rw [cobsDecodeGo_cons f ((nzBlock xs).length + 1) (nzBlock xs)
          (cobsEncode (xs.drop ((nzBlock xs).length + 1)))
          (by omega) (by omega) (fun b hb => mem_nzBlock_ne_zero hb)
          (cobsEncode_ne_nil _)]
        obtain ⟨f', rfl⟩ : ∃ f', f = f' + 1 := ⟨f - 1, by omega⟩
        rw [ih (xs.drop ((nzBlock xs).length + 1)) (by simp; omega) f' (by omega)]
        have hcode : (nzBlock xs).length + 1 < 255 := by
          have h255 := nzBlock_length_le_254 xs
          omega
        rw [if_pos hcode]
        simpa using hxs.symm

/-- Decoding inverts encoding. -/
lemma cobsDecode_cobsEncode (xs : List ℕ) : cobsDecode (cobsEncode xs) = some xs := by
  rw [cobsDecode]
  exact cobsDecodeGo_cobsEncode xs.length xs (le_refl _) (cobsEncode xs).length (le_refl _)

end Codec

/-! ## ECGAnalyzer (src/nervous_sensors/ecg_analyzer.py) -/

namespace ECGAnalyzer

/-- `TIME_GAP_THRESHOLD = 0.01` seconds (ecg_analyzer.py line 34). -/
def TIME_GAP_THRESHOLD : ℚ := 1 / 100

/-- Python's `round` (banker's rounding, ties to even) on an exact value. -/
def pyRoundInt (q : ℚ) : ℤ :=
  let f := ⌊q⌋
  let r := q - f
  if r < 1 / 2 then f
  else if 1 / 2 < r then f + 1
  else if f % 2 = 0 then f else f + 1

/-- Python's `round(x, d)`: round to `d` decimal places, ties to even. -/
def pyRound (d : ℕ) (q : ℚ) : ℚ := (pyRoundInt (q * 10 ^ d) : ℚ) / 10 ^ d

/-- The analyzer's mutable state: the sliding signal/time windows, the
confirmed R-peak history and the previous-invocation snapshot, together
with the construction parameters (`fs`, `window_duration`, `history_size`).
-/
structure State where
  fs : ℕ
  window_duration : ℕ
  history_size : ℚ
  history_r_peak_idx : List ℚ
  previous_history_r_peak_idx : List ℚ
  ecg_window : List ℚ
  time_window : List ℚ
deriving DecidableEq, Repr

/-- `np.linspace(-(N-1)/fs, 0, N)`: the initial time window; sample `i`
sits at `(i - (N - 1)) / fs`, so the last sample sits at time `0`. -/
def timeInit (fs N : ℕ) : List ℚ :=
  (List.range N).map (fun i => ((i : ℚ) - ((N : ℚ) - 1)) / (fs : ℚ))

/-- `ECGAnalyzer._reinit_history` (lines 86-99): forget all peaks and reset
both windows to their initial contents. -/
def reinit (s : State) : State :=
  { s with
    history_r_peak_idx := []
    previous_history_r_peak_idx := []
    ecg_window := List.replicate (s.window_duration * s.fs) 0
    time_window := timeInit s.fs (s.window_duration * s.fs) }

/-- The freshly-constructed analyzer state (`__init__`, lines 69-79). -/
def initState (fs window_duration : ℕ) (history_size : ℚ) : State :=
  { fs := fs
    window_duration := window_duration
    history_size := history_size
    history_r_peak_idx := []
    previous_history_r_peak_idx := []
    ecg_window := List.replicate (window_duration * fs) 0
    time_window := timeInit fs (window_duration * fs) }

/-- The sliding-window update (`np.roll(w, -n)` followed by overwriting the
last `n` entries with the chunk, lines 413-417): drop the oldest `n`
samples and append the chunk. -/
def shiftAppend (w chunk : List ℚ) : List ℚ := w.drop chunk.length ++ chunk

/-- The history-trimming loop of `_update_peak_history` (lines 301-304):
drop the oldest peak while more than one peak remains and the history span
exceeds `history_size`. -/
def trimHistory (hsz : ℚ) : List ℚ → List ℚ
  | [] => []
  | [a] => [a]
  | a :: b :: t =>
    if hsz < (a :: b :: t).getLast (by simp) - a then trimHistory hsz (b :: t)
    else a :: b :: t

/-- `ECGAnalyzer._update_peak_history` (lines 277-304): a new peak is kept
only if it is at least `0.3` away from every peak already in the history;
the kept peaks are appended and the history is trimmed to the rolling
duration window. -/
def updatePeakHistory (hsz : ℚ) (history newPeaks : List ℚ) : List ℚ :=
  trimHistory hsz
    (history ++ newPeaks.filter (fun p => history.all (fun h => decide (3 / 10 ≤ |p - h|))))

/-- `np.median`: middle element of the sorted list (mean of the two middle
elements for even length); `none` for the empty list, where NumPy yields
`NaN` — every comparison against it is then false. -/
def npMedian (l : List ℚ) : Option ℚ :=
  if l = [] then none
  else
    let s := l.insertionSort (· ≤ ·)
    if l.length % 2 = 1 then some (s.getD (l.length / 2) 0)
    else some ((s.getD (l.length / 2 - 1) 0 + s.getD (l.length / 2) 0) / 2)

/-- `np.diff`: successive differences. -/
def npDiff (l : List ℚ) : List ℚ := (l.zip l.tail).map (fun p => p.2 - p.1)

/-- `sd_median = np.median(np.diff(self.previous_history_r_peak_idx))`
(line 345): the expected RR interval, `none` (NaN) when the previous
snapshot has fewer than two peaks. -/
def sdMedian (prev : List ℚ) : Option ℚ := npMedian (npDiff prev)

/-- Line 353: the interval is more than 30% shorter than the median
(`(sd_median - interval) / sd_median > 0.3`); false on a NaN median. -/
def tooShort (med : Option ℚ) (interval : ℚ) : Prop :=
  match med with
  | some m => 3 / 10 < (m - interval) / m
  | none => False

instance (med : Option ℚ) (interval : ℚ) : Decidable (tooShort med interval) := by
  unfold tooShort
  cases med <;> infer_instance

/-- Line 359: the interval is more than 30% longer than the median
(`(interval - sd_median) / sd_median > 0.3`); false on a NaN median. -/
def tooLong (med : Option ℚ) (interval : ℚ) : Prop :=
  match med with
  | some m => 3 / 10 < (interval - m) / m
  | none => False

instance (med : Option ℚ) (interval : ℚ) : Decidable (tooLong med interval) := by
  unfold tooLong
  cases med <;> infer_instance

/-- The `while i < len(new_r_peaks_idx)` loop of `_calculate_heart_rate`
(lines 348-372), acting on the anchored new-peak sequence: a too-short
interval deletes the later peak (`np.delete`) and does not advance `i`; a
too-long or out-of-bounds interval advances without emitting; otherwise
`round(60/interval, 2)` is emitted at `round(peak, 3)` and `i` advances.
Returns the `(heart_rate, heart_rate_timestamp)` lists. -/
def hrLoop (med : Option ℚ) (peaks : List ℚ) (i : ℕ) : List ℚ × List ℚ :=
  if h : i < peaks.length then
    let interval := peaks.getD i 0 - peaks.getD (i - 1) 0
    if tooShort med interval then hrLoop med (peaks.eraseIdx i) i
    else if tooLong med interval then hrLoop med peaks (i + 1)
    else if interval < 3 / 10 ∨ 2 < interval then hrLoop med peaks (i + 1)
    else
      let rest := hrLoop med peaks (i + 1)
      (pyRound 2 (60 / interval) :: rest.1, pyRound 3 (peaks.getD i 0) :: rest.2)
  else ([], [])
termination_by peaks.length - i
decreasing_by
  · simp [List.length_eraseIdx, h]
    omega
  all_goals omega

/-- `ECGAnalyzer._calculate_heart_rate` (lines 306-376).  Returns the
emitted `(heart_rate, heart_rate_timestamp)` pair (`none` for the
`(None, None)` returns) together with the updated state (the
previous-snapshot assignments). -/
def calculate_heart_rate (s : State) : Option (List ℚ × List ℚ) × State :=
  if s.history_r_peak_idx = s.previous_history_r_peak_idx then (none, s)
  else if s.history_r_peak_idx.length ≤ 1 then
    (none, { s with previous_history_r_peak_idx := s.history_r_peak_idx })
  else
    let newPeaks := match s.previous_history_r_peak_idx.getLast? with
      | some lastPrev => s.history_r_peak_idx.filter (fun p => decide (lastPrev < p))
      | none => s.history_r_peak_idx
    if newPeaks = [] then
      (none, { s with previous_history_r_peak_idx := s.history_r_peak_idx })
    else
      let anchored := match s.previous_history_r_peak_idx.getLast? with
        | some lastPrev => lastPrev :: newPeaks
        | none => newPeaks
      let med := sdMedian s.previous_history_r_peak_idx
      (some (hrLoop med anchored 1),
        { s with previous_history_r_peak_idx := s.history_r_peak_idx })

/-- `np.argmax(time_data > 0)`: index of the first strictly positive
timestamp, `0` when there is none. -/
def firstPosIdx (l : List ℚ) : ℕ :=
  match l.findIdx? (fun t => decide (0 < t)) with
  | some i => i
  | none => 0

/-- The tail of `update_hr` after the discontinuity check (lines 412-449):
shift the windows, run the peak detection (`detect`, standing for the
filter pipeline, the three detectors, peak correction, edge removal and the
consensus intersection mapped through `time_window`), merge into the
history, and compute the heart rate.  `detect` receives the updated
windows and returns the confirmed peak timestamps. -/
def afterDiscontinuity (detect : List ℚ → List ℚ → List ℚ) (s : State)
    (ecg time : List ℚ) : Option (List ℚ × List ℚ) × State :=
  let s1 := { s with
    ecg_window := shiftAppend s.ecg_window ecg
    time_window := shiftAppend s.time_window time }
  let peaks := detect s1.ecg_window s1.time_window
  let s2 := { s1 with
    history_r_peak_idx := updatePeakHistory s1.history_size s1.history_r_peak_idx peaks }
  calculate_heart_rate s2

/-- `ECGAnalyzer.update_hr` (lines 378-449): negate and convert the chunk,
return `(None, None)` when either converted chunk is all-zero
(`(not time_data.any()) | (not ecg_data.any())`), drop leading
non-positive-time samples, reset everything on a time discontinuity, then
run the windowed detection pipeline. -/
def update_hr (detect : List ℚ → List ℚ → List ℚ) (s : State)
    (ecgIn timeIn : List ℚ) : Option (List ℚ × List ℚ) × State :=
  let ecg := ecgIn.map (fun x => -x)
  if timeIn.all (fun t => decide (t = 0)) ∨ ecg.all (fun x => decide (x = 0)) then
    (none, s)
  else
    let k := if timeIn.headD 0 < 0 then firstPosIdx timeIn else 0
    let ecg1 := ecg.drop k
    let time1 := timeIn.drop k
    let s1 := if TIME_GAP_THRESHOLD < |time1.headD 0 - s.time_window.getLastD 0| then
        reinit s
      else s
    afterDiscontinuity detect s1 ecg1 time1

end ECGAnalyzer

/-! ## ConnectionManager (src/nervous_sensors/connection_manager.py)

The per-sensor `manage_connection` loop (lines 199-222) and the connection
callbacks (lines 122-157), as a transition system over an interleaving of
the cooperatively-scheduled sensor tasks.  Each sensor occupies one
location of its loop; the semaphore (`asyncio.Semaphore(K)`) is a counter.
The multiset holds the locations of all sensor tasks. -/

namespace ConnectionManager

/-- Where a sensor's `manage_connection` task currently is:

* `idle`: at the top of the `while` loop, not connected;
* `waiting`: suspended in `self._semaphore.acquire()`;
* `attempting`: between acquiring the permit and the resolution of
  `sensor.connect()` as success or failure — the permit is held;
* `connected`: `connect()` signalled `on_sensor_connect` (which released
  the permit, line 143) and now blocks on the disconnection event;
* `sleeping`: in `asyncio.sleep(1)` after a resolution (the permit was
  released either by `on_sensor_connect` or by `on_sensor_fail_to_connect`,
  lines 130/143). -/
inductive Loc where
  | idle
  | waiting
  | attempting
  | connected
  | sleeping
deriving DecidableEq, Repr

/-- Global state: the multiset of sensor-task locations plus the semaphore
counter. -/
structure CMState where
  locs : Multiset Loc
  sem : ℕ
deriving DecidableEq

/-- One scheduler step of the connection orchestration.  Acquiring requires
a positive counter and decrements it; `on_sensor_connect` and
`on_sensor_fail_to_connect` release the permit the moment the attempt
resolves; a later disconnection of an established link (line 279 in
nervous_sensor.py) does not touch the semaphore. -/
inductive Step : CMState → CMState → Prop where
  | tryConnect (rest : Multiset Loc) (m : ℕ) :
      Step ⟨.idle ::ₘ rest, m⟩ ⟨.waiting ::ₘ rest, m⟩
  | acquire (rest : Multiset Loc) (m : ℕ) :
      Step ⟨.waiting ::ₘ rest, m + 1⟩ ⟨.attempting ::ₘ rest, m⟩
  | connectOk (rest : Multiset Loc) (m : ℕ) :
      Step ⟨.attempting ::ₘ rest, m⟩ ⟨.connected ::ₘ rest, m + 1⟩
  | connectFail (rest : Multiset Loc) (m : ℕ) :
      Step ⟨.attempting ::ₘ rest, m⟩ ⟨.sleeping ::ₘ rest, m + 1⟩
  | dropLink (rest : Multiset Loc) (m : ℕ) :
      Step ⟨.connected ::ₘ rest, m⟩ ⟨.sleeping ::ₘ rest, m⟩
  | wake (rest : Multiset Loc) (m : ℕ) :
      Step ⟨.sleeping ::ₘ rest, m⟩ ⟨.idle ::ₘ rest, m⟩

/-- States reachable from the launch configuration: `n` sensor tasks all at
the top of their loops, the semaphore at its configured capacity `K`
(`parallel_connection_authorized`). -/
inductive Reachable (K : ℕ) : CMState → Prop where
  | init (n : ℕ) : Reachable K ⟨Multiset.replicate n .idle, K⟩
  | step {s s' : CMState} : Reachable K s → Step s s' → Reachable K s'

/-- The number of sensors currently holding a connection-attempt permit. -/
def inFlight (s : CMState) : ℕ := Multiset.count .attempting s.locs

end ConnectionManager

/-! ## NervousVirtual (src/nervous_sensors/nervous_virtual.py)

The notification loop of `NervousVirtual.connect` (lines 93-102): after
`start_notifications` sets the start event, the inner loop repeatedly waits
on the stop event with timeout `update_time` and invokes `_process_data`,
until the stop event is observed set at the top of the loop. -/

namespace NervousVirtual

/-- Observable actions of the inner notification loop: `wait true` is a
wait that ran the full update period (the `TimeoutError` branch), `wait
false` is a wait interrupted by the stop event being set, and `call` is an
invocation of `_process_data`. -/
inductive Action where
  | wait (fullPeriod : Bool)
  | call
deriving DecidableEq, Repr

/-- What happens around each iteration of the inner `while` loop: either a
full update period elapses with no stop request, or the stop event is set
during the wait, or the stop event is already set when the loop condition
is re-checked. -/
inductive It where
  | periodElapsed
  | stopDuringWait
  | stopBeforeWait
deriving DecidableEq, Repr

/-- Trace semantics of the inner loop (lines 96-101): the loop condition
`while not self._stop_event.is_set()` exits with no action if stop is
already set; otherwise `asyncio.wait_for(self._stop_event.wait(),
timeout=self._update_time)` either times out (`TimeoutError` branch, full
period) or returns early (stop set during the wait) — in BOTH branches
`self._process_data()` is then invoked; a stop observed during the wait
ends the loop right after that final invocation. -/
def innerTrace : List It → List Action
  | [] => []
  | .periodElapsed :: rest => .wait true :: .call :: innerTrace rest
  | .stopDuringWait :: _ => [.wait false, .call]
  | .stopBeforeWait :: _ => []

end NervousVirtual

/-! ## NervousHR (src/nervous_sensors/nervous_hr.py) -/

namespace NervousHR

/-- The header of the ECG sensor's buffer consumed by `_process_data`
(`["Time (s)", "ECG (A.U.)"]`, see nervous_ecg.py's data manager and the
column accesses at nervous_hr.py lines 100). -/
def ecgHeader : List String := ["Time (s)", "ECG (A.U.)"]

/-- The state of the heart-rate virtual sensor that `_process_data`
touches: the last-seen-timestamp watermark (`self._latest_data`), the
electrode-status cache (`self._electrode_status`), and its own HR buffer
(`HRDataManager`'s store). -/
structure HRState where
  latest_data : ℚ
  electrode_status : String
  hrRows : List (List ℚ)
deriving DecidableEq, Repr

/-- `HRDataManager._process_decoded_data` (nervous_hr.py lines 138-152):
pair each heart-rate value with its timestamp and append through
`_add_data`; an `IndexError` while zipping (fewer timestamps than values)
is caught inside the method, and the store is left untouched. -/
def hrProcessDecoded (store : List (List ℚ)) (timestamp data : List ℚ) : List (List ℚ) :=
  if data.length ≤ timestamp.length then
    DataManager.addData store ((List.zip timestamp data).map (fun p => [p.1, p.2]))
  else store

/-- The rows fetched by
`self._sensor.data_manager.get_latest_data(latest_data=self._latest_data)`
(line 80): all buffer rows strictly newer than the watermark, through the
DataManager model with the default arguments (`last_n=None`,
`latest_data_column=0`, `concerned_columns=None`). -/
def fetchNew (buffer : List (List ℚ)) (marker : ℚ) : List (List ℚ) :=
  match DataManager.get_latest_data ecgHeader buffer none (some marker) (.inl 0) none with
  | .ok (some df) => df.rows
  | _ => []

/-- Column values of the fetched frame (`data["..."].tolist()`). -/
def colVals (j : ℕ) (rows : List (List ℚ)) : List ℚ := rows.map (fun r => r.getD j 0)

/-- `NervousHR._process_data` (nervous_hr.py lines 72-107).  The analyzer
call (the external `nervous_analytics` `ECGAnalyzer.update_hr`) is a free
parameter returning either a fault (caught by the `try`/`except`, line
105), no output (`heart_rate is None`), or the emitted values.  The
watermark is advanced to the last fetched row's timestamp (line 84) BEFORE
the electrode check and the analyzer call. -/
def process_data (analyzer : List ℚ → List ℚ → Except String (Option (List ℚ × List ℚ)))
    (buffer : List (List ℚ)) (currentStatus : String) (s : HRState) : HRState :=
  let fetched := fetchNew buffer s.latest_data
  match fetched.getLast? with
  | none => s
  | some lastRow =>
    let s1 := { s with latest_data := lastRow.getD 0 0, electrode_status := currentStatus }
    if currentStatus ≠ "both on" then s1
    else
      match analyzer (colVals 1 fetched) (colVals 0 fetched) with
      | .error _ => s1
      | .ok none => s1
      | .ok (some (hr, ts)) => { s1 with hrRows := hrProcessDecoded s1.hrRows ts hr }

end NervousHR

/-! ## Claim theorems -/

/-- Helper for C5: a single-row append keeps the store strictly below the
upper threshold. -/
lemma addData_single_lt (st : List DataManager.Row) (r : DataManager.Row)
    (h : st.length < DataManager.THRESH2) :
    (DataManager.addData st [r]).length < DataManager.THRESH2 := by
  unfold DataManager.addData
  split
  · simp only [List.length_drop, List.length_append, List.length_cons, List.length_nil,
      DataManager.THRESH1, DataManager.THRESH2] at *
    omega
  · simp only [List.length_append, List.length_cons, List.length_nil,
      DataManager.THRESH2] at *
    omega

/-- Helper for C5: one-at-a-time appends starting from the empty store keep
the store strictly below the upper threshold. -/
lemma foldl_addData_lt (rows : List DataManager.Row) :
    ∀ st : List DataManager.Row, st.length < DataManager.THRESH2 →
      (rows.foldl (fun acc r => DataManager.addData acc [r]) st).length <
        DataManager.THRESH2 := by
  induction rows with
  | nil => intro st h; simpa using h
  | cons r t ih =>
    intro st h
    exact ih (DataManager.addData st [r]) (addData_single_lt st r h)

/-- C5: when an append makes the stored length reach `THRESH2 = 20000`, the
store is truncated to exactly the most recent `THRESH1 = 12000` rows;
one-at-a-time appends from the empty store never leave more than 20000
rows; truncation only ever removes the oldest rows (the result is a suffix
of the extended store). -/
theorem C5_buffer_hysteresis (store data : List DataManager.Row) (r : DataManager.Row) :
    (DataManager.THRESH2 ≤ (store ++ data).length →
      DataManager.addData store data =
        (store ++ data).drop ((store ++ data).length - DataManager.THRESH1) ∧
      (DataManager.addData store data).length = DataManager.THRESH1) ∧
    (store.length < DataManager.THRESH2 →
      (DataManager.addData store [r]).length < DataManager.THRESH2) ∧
    (∀ rows : List DataManager.Row,
      (rows.foldl (fun acc rr => DataManager.addData acc [rr]) []).length <
        DataManager.THRESH2) ∧
    DataManager.addData store data <:+ store ++ data := by
  refine ⟨?_, addData_single_lt store r, ?_, ?_⟩
  · intro h
    constructor
    · unfold DataManager.addData
      rw [if_pos h]
    · unfold DataManager.addData
      rw [if_pos h]
      simp only [List.length_drop, DataManager.THRESH1, DataManager.THRESH2] at h ⊢
      omega
  · intro rows
    exact foldl_addData_lt rows []
      (by simp [DataManager.THRESH2])
  · unfold DataManager.addData
    split
    · exact List.drop_suffix _ _
    · exact List.suffix_refl _

/-- C5 witness: a store exactly at the upper threshold is truncated to the
most recent 12000 rows. -/
theorem C5_buffer_hysteresis_witness :
    DataManager.addData (List.replicate 20000 ([0] : DataManager.Row)) [] =
      (List.replicate 20000 ([0] : DataManager.Row) ++ []).drop
        ((List.replicate 20000 ([0] : DataManager.Row) ++ []).length -
          DataManager.THRESH1) ∧
    (DataManager.addData (List.replicate 20000 ([0] : DataManager.Row)) []).length =
      DataManager.THRESH1 := by
  have h2 : DataManager.THRESH2 ≤
      (List.replicate 20000 ([0] : DataManager.Row) ++ []).length := by
    rw [List.append_nil, List.length_replicate]
    decide
  with_reducible exact
    (C5_buffer_hysteresis (List.replicate 20000 ([0] : DataManager.Row)) [] [0]).1 h2

/-- C3: supplying both query modes, or neither, raises `ValueError` at
data_manager.py line 144 — but that line sits INSIDE the function's own
`try` block, so the `except` at line 145 swallows it and the caller
receives an empty DataFrame instead of the exception promised by the
claim and by the function's docstring ("Raises: ValueError").  The theorem
evaluates the model at both failing inputs: the result is a normal
(non-exceptional) return of an empty frame. -/
theorem C3_query_mode_violation_swallowed :
    DataManager.get_latest_data ["Time (s)", "HR (BPM)"] [[1, 70]] (some 5) (some 1)
        (.inl 0) none =
      .ok (some ⟨[.inr "Time (s)", .inr "HR (BPM)"], []⟩) ∧
    DataManager.get_latest_data ["Time (s)", "HR (BPM)"] [[1, 70]] none none
        (.inl 0) none =
      .ok (some ⟨[.inr "Time (s)", .inr "HR (BPM)"], []⟩) := by
  constructor <;> rfl

/-- C4 counterexample: an out-of-range integer in `concerned_columns` is
resolved through `self.__header[c]` BEFORE the `try` block
(data_manager.py line 122), so the `IndexError` propagates to the caller
instead of degrading to an empty result, refuting the claim for faults
raised while resolving the requested columns. -/
theorem C4_counterexample :
    DataManager.get_latest_data ["Time (s)", "ECG (A.U.)"] [[1, 2]] (some 1) none
        (.inl 0) (some [.inl 5]) = .error "IndexError" := rfl

/-- C4 (amended): any fault raised inside the guarded query body (the
`try` block: frame construction, column selection, the mode violation,
timestamp-column resolution) degrades to an empty result shaped by the
already-resolved requested columns; a fault while resolving integer
requested-column indices, which happens before the guarded block,
propagates to the caller. -/
theorem C4_guarded_faults_degrade_to_empty
    (header : List String) (data : List (List ℚ)) (ln : Option ℤ) (ld : Option ℚ)
    (ldc : DataManager.ColRef) (ccOpt : Option (List DataManager.ColRef))
    (cc : List DataManager.ColRef) (e : String) :
    (DataManager.resolveCols header ccOpt = .ok cc →
      DataManager.innerQuery header data cc ln ld ldc = .error e →
      DataManager.get_latest_data header data ln ld ldc ccOpt = .ok (some ⟨cc, []⟩)) ∧
    (DataManager.resolveCols header ccOpt = .error e →
      DataManager.get_latest_data header data ln ld ldc ccOpt = .error e) := by
  constructor
  · intro h1 h2
    simp [DataManager.get_latest_data, h1, h2]
  · intro h1
    simp [DataManager.get_latest_data, h1]

/-- C4 witness: a concrete guarded fault (the both-modes `ValueError`)
degrades to the empty frame shaped by the requested column. -/
theorem C4_guarded_faults_witness :
    DataManager.get_latest_data ["A"] [] (some 1) (some 1) (.inl 0) none =
      .ok (some ⟨[.inr "A"], []⟩) :=
  (C4_guarded_faults_degrade_to_empty ["A"] [] (some 1) (some 1) (.inl 0) none
    [.inr "A"] "ValueError").1 rfl rfl

/-- C9: for every payload whose stuffed encoding contains no embedded zero
byte, decoding the frame formed by byte-stuffing the payload and appending
the zero terminator (exactly what `Codec.time_encode` emits) returns the
original payload: `Codec.cobs_decode` is a left inverse of
stuff-and-terminate. -/
theorem C9_framing_round_trip (payload : List ℕ)
    (hnz : (0 : ℕ) ∉ Codec.cobsEncode payload) :
    Codec.cobs_decode (Codec.stuffAndTerminate payload) = some payload := by
  rw [Codec.cobs_decode, Codec.stuffAndTerminate]
  have hdl : (Codec.cobsEncode payload ++ [0]).dropLast = Codec.cobsEncode payload := by
    simp
  rw [hdl]
  exact Codec.cobsDecode_cobsEncode payload

/-- C9 witness: the round trip on the concrete payload `[1, 2, 0, 3]`,
whose encoding `[3, 1, 2, 2, 3]` is zero-free. -/
theorem C9_framing_round_trip_witness :
    (0 : ℕ) ∉ Codec.cobsEncode [1, 2, 0, 3] ∧
      Codec.cobs_decode (Codec.stuffAndTerminate [1, 2, 0, 3]) = some [1, 2, 0, 3] :=
  ⟨by decide, C9_framing_round_trip [1, 2, 0, 3] (by decide)⟩

/-- C1: one iteration of the heart-rate interval loop, on the new-peak
sequence anchored by the last previously-seen peak with the median RR
interval of the previous snapshot: an interval more than 30% shorter than
the median deletes the later peak without advancing the iteration index;
an interval more than 30% longer than the median, or outside the absolute
`[0.3 s, 2.0 s]` bound, emits no rate but advances to the next interval;
any other interval emits `round(60/interval, 2)` timestamped at the later
peak's time rounded to millisecond precision (`round(·, 3)`), and
advances. -/
theorem C1_heart_rate_interval_rules (med : Option ℚ) (peaks : List ℚ) (i : ℕ)
    (h1 : 1 ≤ i) (h2 : i < peaks.length) :
    (ECGAnalyzer.tooShort med (peaks.getD i 0 - peaks.getD (i - 1) 0) →
      ECGAnalyzer.hrLoop med peaks i = ECGAnalyzer.hrLoop med (peaks.eraseIdx i) i) ∧
    (¬ ECGAnalyzer.tooShort med (peaks.getD i 0 - peaks.getD (i - 1) 0) →
      (ECGAnalyzer.tooLong med (peaks.getD i 0 - peaks.getD (i - 1) 0) ∨
        peaks.getD i 0 - peaks.getD (i - 1) 0 < 3 / 10 ∨
        2 < peaks.getD i 0 - peaks.getD (i - 1) 0) →
      ECGAnalyzer.hrLoop med peaks i = ECGAnalyzer.hrLoop med peaks (i + 1)) ∧
    (¬ ECGAnalyzer.tooShort med (peaks.getD i 0 - peaks.getD (i - 1) 0) →
      ¬ ECGAnalyzer.tooLong med (peaks.getD i 0 - peaks.getD (i - 1) 0) →
      3 / 10 ≤ peaks.getD i 0 - peaks.getD (i - 1) 0 →
      peaks.getD i 0 - peaks.getD (i - 1) 0 ≤ 2 →
      ECGAnalyzer.hrLoop med peaks i =
        (ECGAnalyzer.pyRound 2 (60 / (peaks.getD i 0 - peaks.getD (i - 1) 0)) ::
            (ECGAnalyzer.hrLoop med peaks (i + 1)).1,
          ECGAnalyzer.pyRound 3 (peaks.getD i 0) ::
            (ECGAnalyzer.hrLoop med peaks (i + 1)).2)) := by
  refine ⟨?_, ?_, ?_⟩
  · intro hshort
    rw [ECGAnalyzer.hrLoop]
    rw [dif_pos h2, if_pos hshort]
  · intro hshort hskip
    rw [ECGAnalyzer.hrLoop]
    rw [dif_pos h2, if_neg hshort]
    rcases hskip with hlong | hb
    · rw [if_pos hlong]
    · by_cases hlong : ECGAnalyzer.tooLong med (peaks.getD i 0 - peaks.getD (i - 1) 0)
      · rw [if_pos hlong]
      · rw [if_neg hlong, if_pos hb]
  · intro hshort hlong hlo hhi
    rw [ECGAnalyzer.hrLoop]
    rw [dif_pos h2, if_neg hshort, if_neg hlong,
      if_neg (by push_neg; exact ⟨hlo, hhi⟩ :
        ¬ (peaks.getD i 0 - peaks.getD (i - 1) 0 < 3 / 10 ∨
          2 < peaks.getD i 0 - peaks.getD (i - 1) 0))]

/-- C1 witness: the spec's own example — previous-snapshot median 0.8 s; a
0.5 s interval (37.5% short) deletes its peak without advancing, and a
1.2 s interval (50% long) yields no rate while processing advances. -/
theorem C1_heart_rate_interval_rules_witness :
    ECGAnalyzer.hrLoop (some (4 / 5)) [0, 1 / 2, 2] 1 =
        ECGAnalyzer.hrLoop (some (4 / 5)) ([0, 1 / 2, 2].eraseIdx 1) 1 ∧
      ECGAnalyzer.hrLoop (some (4 / 5)) [0, 6 / 5, 5 / 2] 1 =
        ECGAnalyzer.hrLoop (some (4 / 5)) [0, 6 / 5, 5 / 2] 2 :=
  ⟨(C1_heart_rate_interval_rules (some (4 / 5)) [0, 1 / 2, 2] 1 (by decide)
      (by decide)).1 (by norm_num [ECGAnalyzer.tooShort]),
    (C1_heart_rate_interval_rules (some (4 / 5)) [0, 6 / 5, 5 / 2] 1 (by decide)
      (by decide)).2.1 (by norm_num [ECGAnalyzer.tooShort])
      (Or.inl (by norm_num [ECGAnalyzer.tooLong]))⟩

/-- C10: a call of `update_hr` whose converted ECG chunk is all-zero, or
whose time chunk is all-zero, returns `(None, None)` and leaves the whole
analyzer state untouched — exactly like an empty input (line 398:
`if (not time_data.any()) | (not ecg_data.any()): return None, None`). -/
theorem C10_all_zero_chunk_is_noop (detect : List ℚ → List ℚ → List ℚ)
    (s : ECGAnalyzer.State) (ecg time : List ℚ)
    (h : (∀ t ∈ time, t = 0) ∨ (∀ x ∈ ecg.map (fun v => -v), x = (0 : ℚ))) :
    ECGAnalyzer.update_hr detect s ecg time = (none, s) := by
  have hc : ((time.all fun t => decide (t = 0)) = true) ∨
      ((List.all (ecg.map fun x => -x) fun x => decide (x = 0)) = true) := by
    rcases h with h | h
    · left
      simpa [List.all_eq_true] using h
    · right
      rw [List.all_eq_true]
      intro x hx
      simpa using h x hx
  simp only [ECGAnalyzer.update_hr]
  rcases hc with hc | hc
  · rw [if_pos (Or.inl hc)]
  · rw [if_pos (Or.inr hc)]

/-- C10 witness: a non-empty all-zero ECG chunk is a no-op. -/
theorem C10_all_zero_chunk_is_noop_witness :
    ECGAnalyzer.update_hr (fun _ _ => []) (ECGAnalyzer.initState 1 1 1) [0, 0] [5, 6] =
      (none, ECGAnalyzer.initState 1 1 1) :=
  C10_all_zero_chunk_is_noop (fun _ _ => []) (ECGAnalyzer.initState 1 1 1) [0, 0] [5, 6]
    (Or.inr (by simp))

/-- Helper for C2: starting from an empty peak history and snapshot, the
heart-rate computation emits nothing unless the detector confirms at least
two peaks. -/
lemma afterDiscontinuity_none_of_few (detect : List ℚ → List ℚ → List ℚ)
    (s : ECGAnalyzer.State) (ecg time : List ℚ)
    (hhist : s.history_r_peak_idx = [])
    (hprev : s.previous_history_r_peak_idx = [])
    (hd : (detect (ECGAnalyzer.shiftAppend s.ecg_window ecg)
        (ECGAnalyzer.shiftAppend s.time_window time)).length ≤ 1) :
    (ECGAnalyzer.afterDiscontinuity detect s ecg time).1 = none := by
  simp only [ECGAnalyzer.afterDiscontinuity, ECGAnalyzer.updatePeakHistory, hhist, hprev]
  cases hpk : detect (ECGAnalyzer.shiftAppend s.ecg_window ecg)
      (ECGAnalyzer.shiftAppend s.time_window time) with
  | nil =>
    simp [hpk, ECGAnalyzer.trimHistory, ECGAnalyzer.calculate_heart_rate, hprev]
  | cons p rest =>
    cases rest with
    | nil =>
      simp [hpk, ECGAnalyzer.trimHistory, ECGAnalyzer.calculate_heart_rate, hprev]
    | cons q t =>
      rw [hpk] at hd
      simp at hd

/-- C2: when the gap between the (non-negative) first timestamp of a
non-degenerate chunk and the last timestamp of the sliding window exceeds
0.01 s, the signal window, time window, peak history and previous snapshot
are all reset to their initial state before the chunk is appended
(`update_hr` continues exactly as on the reinitialized state), and the
subsequent heart-rate computation emits nothing unless at least two newly
confirmed peaks arrive. -/
theorem C2_discontinuity_reset (detect : List ℚ → List ℚ → List ℚ)
    (s : ECGAnalyzer.State) (ecg time : List ℚ) (t0 : ℚ)
    (hz1 : ¬ ∀ t ∈ time, t = 0)
    (hz2 : ¬ ∀ x ∈ ecg, x = (0 : ℚ))
    (hh : time.head? = some t0) (ht0 : 0 ≤ t0)
    (hgap : ECGAnalyzer.TIME_GAP_THRESHOLD < |t0 - s.time_window.getLastD 0|) :
    ECGAnalyzer.update_hr detect s ecg time =
        ECGAnalyzer.afterDiscontinuity detect (ECGAnalyzer.reinit s)
          (ecg.map (fun x => -x)) time ∧
      ((detect (ECGAnalyzer.shiftAppend (ECGAnalyzer.reinit s).ecg_window
            (ecg.map (fun x => -x)))
          (ECGAnalyzer.shiftAppend (ECGAnalyzer.reinit s).time_window time)).length ≤ 1 →
        (ECGAnalyzer.update_hr detect s ecg time).1 = none) := by
  have h1 : ECGAnalyzer.update_hr detect s ecg time =
      ECGAnalyzer.afterDiscontinuity detect (ECGAnalyzer.reinit s)
        (ecg.map (fun x => -x)) time := by
    have hhd : time.headD 0 = t0 := by
      cases time with
      | nil => simp at hh
      | cons a rest => simpa using hh
    have hcond : ¬ (((time.all fun t => decide (t = 0)) = true) ∨
        ((List.all (ecg.map fun x => -x) fun x => decide (x = 0)) = true)) := by
      rintro (hA | hB)
      · exact hz1 (by simpa [List.all_eq_true] using hA)
      · apply hz2
        intro x hx
        have hx0 := List.all_eq_true.mp hB (-x) (List.mem_map_of_mem _ hx)
        simpa using hx0
    have hneg : ¬ (time.headD 0 < 0) := by
      rw [hhd]
      exact not_lt.mpr ht0
    simp only [ECGAnalyzer.update_hr]
    rw [if_neg hcond, if_neg hneg]
    simp only [List.drop_zero]
    rw [if_pos (by rw [hhd]; exact hgap)]
  refine ⟨h1, fun hd => ?_⟩
  rw [h1]
  exact afterDiscontinuity_none_of_few detect (ECGAnalyzer.reinit s)
    (ecg.map (fun x => -x)) time rfl rfl hd

/-- C2 witness: a chunk starting 1 s after the window's last sample resets
the analyzer, and with no confirmed peaks nothing is emitted. -/
theorem C2_discontinuity_reset_witness :
    ECGAnalyzer.update_hr (fun _ _ => [])
        ⟨1, 1, 5, [], [], [0], [5]⟩ [1] [6] =
        ECGAnalyzer.afterDiscontinuity (fun _ _ => [])
          (ECGAnalyzer.reinit ⟨1, 1, 5, [], [], [0], [5]⟩)
          ([1].map (fun x => -x)) [6] ∧
      (ECGAnalyzer.update_hr (fun _ _ => [])
          ⟨1, 1, 5, [], [], [0], [5]⟩ [1] [6]).1 = none := by
  have h := C2_discontinuity_reset (fun _ _ => []) ⟨1, 1, 5, [], [], [0], [5]⟩
    [1] [6] 6 (by norm_num) (by norm_num) rfl (by norm_num)
    (by norm_num [ECGAnalyzer.TIME_GAP_THRESHOLD])
  exact ⟨h.1, h.2 (by simp)⟩

/-- C6: in every state reachable from the launch configuration with
semaphore capacity `K`, the number of sensors between permit acquisition
and permit release (`inFlight`: location `attempting`) never exceeds `K`;
indeed the semaphore counter plus the in-flight count is exactly `K`, so a
permit is accounted as released in the very transition in which the
attempt resolves (success or failure) and is never held by an established
connection. -/
theorem C6_permit_bound (K : ℕ) (s : ConnectionManager.CMState)
    (h : ConnectionManager.Reachable K s) :
    s.sem + ConnectionManager.inFlight s = K ∧ ConnectionManager.inFlight s ≤ K := by
  have main : s.sem + ConnectionManager.inFlight s = K := by
    induction h with
    | init n =>
      simp [ConnectionManager.inFlight, Multiset.count_replicate]
    | step _ hstep ih =>
      cases hstep <;>
        simp_all [ConnectionManager.inFlight, Multiset.count_cons] <;> omega
  exact ⟨main, by omega⟩

/-- C6 witness: a reachable state with three sensors, capacity 2, one
sensor mid-attempt (one permit held, one free). -/
theorem C6_permit_bound_witness :
    (⟨ConnectionManager.Loc.attempting ::ₘ Multiset.replicate 2 .idle, 1⟩ :
        ConnectionManager.CMState).sem +
      ConnectionManager.inFlight
        ⟨ConnectionManager.Loc.attempting ::ₘ Multiset.replicate 2 .idle, 1⟩ = 2 ∧
    ConnectionManager.inFlight
        ⟨ConnectionManager.Loc.attempting ::ₘ Multiset.replicate 2 .idle, 1⟩ ≤ 2 :=
  C6_permit_bound 2 _
    (ConnectionManager.Reachable.step
      (ConnectionManager.Reachable.step (ConnectionManager.Reachable.init 3)
        (ConnectionManager.Step.tryConnect (Multiset.replicate 2 .idle) 2))
      (ConnectionManager.Step.acquire (Multiset.replicate 2 .idle) 1))

/-- C7 counterexample: the claim says `processData()` is invoked once
immediately on start; in the code (nervous_virtual.py lines 96-101) the
loop FIRST waits up to one full update period and only then invokes
`_process_data()`, so the first action of a fresh activation is a wait,
not a call — and a stop request arriving during a wait still triggers one
final invocation before the loop exits. -/
theorem C7_counterexample :
    (NervousVirtual.innerTrace [.periodElapsed]).head? ≠
        some NervousVirtual.Action.call ∧
      NervousVirtual.innerTrace [.stopDuringWait] =
        [NervousVirtual.Action.wait false, NervousVirtual.Action.call] := by
  constructor
  · decide
  · rfl

/-- C7 (amended): each iteration of the notification loop first waits on
the stop event with timeout one update period and then invokes
`processData()` once — so the first invocation occurs one period after
start (or earlier if stop arrives), not immediately; a stop request during
the wait interrupts the wait (wait-with-timeout) and still triggers one
final invocation before the loop exits; a stop observed at the top of the
loop exits with no invocation; every wait (full or interrupted) is
followed by exactly one invocation. -/
theorem C7_notification_loop (rest : List NervousVirtual.It)
    (outcomes : List NervousVirtual.It) :
    NervousVirtual.innerTrace (.periodElapsed :: rest) =
        .wait true :: .call :: NervousVirtual.innerTrace rest ∧
      NervousVirtual.innerTrace (.stopDuringWait :: rest) = [.wait false, .call] ∧
      NervousVirtual.innerTrace (.stopBeforeWait :: rest) = [] ∧
      (NervousVirtual.innerTrace outcomes).count .call =
        (NervousVirtual.innerTrace outcomes).count (.wait true) +
          (NervousVirtual.innerTrace outcomes).count (.wait false) := by
  refine ⟨rfl, rfl, rfl, ?_⟩
  induction outcomes with
  | nil => rfl
  | cons o t ih =>
    cases o with
    | periodElapsed =>
      simp only [NervousVirtual.innerTrace, List.count_cons, ih]
      simp
      omega
    | stopDuringWait => rfl
    | stopBeforeWait => rfl

/-- Helper for C8: a two-entry row is rebuilt exactly by projecting its two
columns. -/
lemma row2_eq {r : List ℚ} (h : r.length = 2) : [r.getD 0 0, r.getD 1 0] = r := by
  cases r with
  | nil => simp at h
  | cons a t =>
    cases t with
    | nil => simp at h
    | cons b t2 =>
      cases t2 with
      | nil => rfl
      | cons c t3 => simp at h

/-- Helper for C8: the fetch performed by `NervousHR._process_data` through
the buffer query (`get_latest_data(latest_data=marker)`) returns exactly
the buffer rows whose timestamp is strictly newer than the watermark. -/
lemma fetchNew_eq (buffer : List (List ℚ)) (m : ℚ)
    (hw : ∀ r ∈ buffer, r.length = 2) :
    NervousHR.fetchNew buffer m =
      buffer.filter (fun r => decide (m < r.getD 0 0)) := by
  have hall : (buffer.all fun r =>
      decide (r.length = ["Time (s)", "ECG (A.U.)"].length)) = true := by
    rw [List.all_eq_true]
    intro r hr
    simpa using hw r hr
  have hmap : buffer.map (fun r => [r.getD 0 0, r.getD 1 0]) = buffer := by
    have hcg : buffer.map (fun r => [r.getD 0 0, r.getD 1 0]) = buffer.map id :=
      List.map_congr_left (fun r hr => row2_eq (hw r hr))
    simpa using hcg
  simp only [NervousHR.fetchNew, DataManager.get_latest_data, DataManager.resolveCols,
    DataManager.innerQuery, DataManager.mkDF, DataManager.selectCols,
    NervousHR.ecgHeader]
  simp only [hall]
  simp [Except.instMonad, Bind.bind, Except.bind, pure, Except.pure, List.findIdx_cons]
  simp only [List.getD_eq_getElem?_getD] at hmap
  rw [hmap]

/-- Helper for C8: in a nondecreasing list every element is at most the
last one. -/
lemma sorted_le_getLast :
    ∀ (l : List ℚ), l.Sorted (· ≤ ·) → ∀ x ∈ l, ∀ y, l.getLast? = some y → x ≤ y := by
  intro l
  induction l with
  | nil =>
    intro _ x hx
    simp at hx
  | cons a t ih =>
    intro hs x hx y hy
    cases t with
    | nil =>
      have hxa : x = a := by simpa using hx
      have hya : a = y := by simpa using hy
      rw [hxa, ← hya]
    | cons b t2 =>
      rw [List.getLast?_cons_cons] at hy
      rcases List.mem_cons.mp hx with rfl | hx2
      · have hymem : y ∈ b :: t2 := by
          obtain ⟨h0, hyl⟩ := List.mem_getLast?_eq_getLast (Option.mem_def.mpr hy)
          rw [hyl]
          exact List.getLast_mem h0
        exact (List.sorted_cons.mp hs).1 y hymem
      · exact ih (List.sorted_cons.mp hs).2 x hx2 y hy

/-- Helper for C8: column extraction commutes with the timestamp filter. -/
lemma colVals_filter (m : ℚ) (l : List (List ℚ)) :
    NervousHR.colVals 0 (l.filter (fun r => decide (m < r.getD 0 0))) =
      (NervousHR.colVals 0 l).filter (fun t => decide (m < t)) := by
  induction l with
  | nil => rfl
  | cons r t ih =>
    simp only [NervousHR.colVals, List.getD_eq_getElem?_getD] at ih
    by_cases h : m < r[0]?.getD 0
    · simp [NervousHR.colVals, List.filter_cons, List.getD_eq_getElem?_getD, h]
      exact ih
    · simp [NervousHR.colVals, List.filter_cons, List.getD_eq_getElem?_getD, h]
      exact ih

/-- C8: whenever `_process_data` finds at least one buffer row newer than
the watermark, the watermark is advanced to the (newest) timestamp of the
fetched rows — for EVERY electrode status and EVERY analyzer outcome
(values, no output, or a fault), since the assignment happens before the
status check and the guarded analyzer call — and a repeated invocation on
the same buffer fetches nothing and leaves the state unchanged: no sample
window is fetched and processed twice. -/
theorem C8_watermark_advances
    (analyzer : List ℚ → List ℚ → Except String (Option (List ℚ × List ℚ)))
    (buffer : List (List ℚ)) (status : String) (s : NervousHR.HRState)
    (hw : ∀ r ∈ buffer, r.length = 2)
    (hsorted : (NervousHR.colVals 0 buffer).Sorted (· ≤ ·))
    (lastRow : List ℚ)
    (hlast : (NervousHR.fetchNew buffer s.latest_data).getLast? = some lastRow) :
    (NervousHR.process_data analyzer buffer status s).latest_data = lastRow.getD 0 0 ∧
    (∀ r ∈ NervousHR.fetchNew buffer s.latest_data, r.getD 0 0 ≤ lastRow.getD 0 0) ∧
    NervousHR.process_data analyzer buffer status
        (NervousHR.process_data analyzer buffer status s) =
      NervousHR.process_data analyzer buffer status s := by
  have hmax : ∀ r ∈ NervousHR.fetchNew buffer s.latest_data,
      r.getD 0 0 ≤ lastRow.getD 0 0 := by
    intro r hr
    have hsf : (NervousHR.colVals 0 (NervousHR.fetchNew buffer s.latest_data)).Sorted
        (· ≤ ·) := by
      rw [fetchNew_eq buffer s.latest_data hw, colVals_filter]
      exact hsorted.sublist (List.filter_sublist _)
    have hmem : r.getD 0 0 ∈ NervousHR.colVals 0 (NervousHR.fetchNew buffer s.latest_data) :=
      List.mem_map_of_mem _ hr
    have hlast2 : (NervousHR.colVals 0 (NervousHR.fetchNew buffer s.latest_data)).getLast? =
        some (lastRow.getD 0 0) := by
      rw [NervousHR.colVals, List.getLast?_map, hlast]
      rfl
    exact sorted_le_getLast _ hsf _ hmem _ hlast2
  have hadv : (NervousHR.process_data analyzer buffer status s).latest_data =
      lastRow.getD 0 0 := by
    simp only [NervousHR.process_data, hlast]
    by_cases hst : status ≠ "both on"
    · rw [if_pos hst]
    · rw [if_neg hst]
      cases analyzer (NervousHR.colVals 1 (NervousHR.fetchNew buffer s.latest_data))
          (NervousHR.colVals 0 (NervousHR.fetchNew buffer s.latest_data)) with
      | error e => rfl
      | ok v =>
        cases v with
        | none => rfl
        | some pr =>
          obtain ⟨hr0, ts0⟩ := pr
          rfl
  refine ⟨hadv, hmax, ?_⟩
  have hmarker : s.latest_data < lastRow.getD 0 0 := by
    have hmemf : lastRow ∈ NervousHR.fetchNew buffer s.latest_data := by
      obtain ⟨h0, hyl⟩ := List.mem_getLast?_eq_getLast (Option.mem_def.mpr hlast)
      rw [hyl]
      exact List.getLast_mem h0
    rw [fetchNew_eq buffer s.latest_data hw] at hmemf
    simpa using List.of_mem_filter hmemf
  have hempty : NervousHR.fetchNew buffer
      (NervousHR.process_data analyzer buffer status s).latest_data = [] := by
    rw [hadv, fetchNew_eq buffer _ hw, List.filter_eq_nil_iff]
    intro r hr
    simp only [decide_eq_true_eq, not_lt]
    by_cases hnew : s.latest_data < r.getD 0 0
    · have hrf : r ∈ NervousHR.fetchNew buffer s.latest_data := by
        rw [fetchNew_eq buffer s.latest_data hw]
        exact List.mem_filter.mpr ⟨hr, by simpa using hnew⟩
      exact hmax r hrf
    · exact le_trans (le_of_not_lt hnew) (le_of_lt hmarker)
  have hnoop : ∀ s2 : NervousHR.HRState,
      NervousHR.fetchNew buffer s2.latest_data = [] →
        NervousHR.process_data analyzer buffer status s2 = s2 := by
    intro s2 h2
    simp only [NervousHR.process_data, h2]
    rfl
  exact hnoop (NervousHR.process_data analyzer buffer status s) hempty

/-- C8 witness: a two-row buffer newer than a zero watermark advances the
watermark to the newest timestamp; re-running fetches nothing. -/
theorem C8_watermark_advances_witness :
    (NervousHR.process_data (fun _ _ => .ok none) [[1, 10], [2, 20]] "both on"
        ⟨0, "both on", []⟩).latest_data = ([2, 20] : List ℚ).getD 0 0 ∧
    (∀ r ∈ NervousHR.fetchNew [[1, 10], [2, 20]] (0 : ℚ),
      r.getD 0 0 ≤ ([2, 20] : List ℚ).getD 0 0) ∧
    NervousHR.process_data (fun _ _ => .ok none) [[1, 10], [2, 20]] "both on"
        (NervousHR.process_data (fun _ _ => .ok none) [[1, 10], [2, 20]] "both on"
          ⟨0, "both on", []⟩) =
      NervousHR.process_data (fun _ _ => .ok none) [[1, 10], [2, 20]] "both on"
        ⟨0, "both on", []⟩ :=
  C8_watermark_advances (fun _ _ => .ok none) [[1, 10], [2, 20]] "both on"
    ⟨0, "both on", []⟩ (by norm_num) (by norm_num [NervousHR.colVals])
    [2, 20] (by norm_num [fetchNew_eq, List.filter])

end NervousSensors
